import Mathlib

/-!
# Verification of the document annotation engine

A shallow embedding, in Lean 4, of the core algorithms of the
document-annotation repository: the text segmenter (`segmentText` in
`DocumentViewer`), the citation extractor and stripper
(`extractCitations` / `stripCitations` in `ChatSidebar`), the state
reducer (`documentReducer` in `DocumentContext`), the jump-to-source
handler, the scroll/focus effect, and the `getDocumentExcerpt` tool of
the chat route.

Strings are modelled as `List Char`; JavaScript numbers that hold
character offsets are modelled as `Int` (every offset arising in the
code fits exactly; `Number` applied to a digit-only capture is modelled
as the exact natural value, precision loss past 2^53 being irrelevant to
the inputs considered here).
-/

/-- JavaScript `String.prototype.slice(a, b)` for non-negative indices:
the characters at positions `[a, b)`, clamped to the string, and empty
when `b ≤ a`.  Every call site in the embedded code passes non-negative
arguments, so the negative-index ("from the end") behaviour of
JavaScript is never exercised. -/
def jsSlice (s : List Char) (a b : Int) : List Char :=
  (s.take b.toNat).drop a.toNat

/-- The `Highlight` interface of `DocumentContext`: an id, a half-open
character range, and an optional color.  The TypeScript field `end` is
called `stop` here because `end` is a Lean keyword. -/
structure Highlight where
  id : String
  start : Int
  stop : Int
  color : Option String := none
deriving DecidableEq, Repr

/-- The `TextSegment` interface of `DocumentViewer`: a slice of the
document, the highlight it is bound to (or `none` for plain text), and
its half-open range.  The TypeScript field `end` is called `stop`. -/
structure TextSegment where
  text : List Char
  highlight : Option Highlight
  start : Int
  stop : Int
deriving DecidableEq, Repr

/-- `[...highlights].sort((a, b) => a.start - b.start)`: a stable sort
by ascending `start` (ECMAScript `Array.prototype.sort` is stable;
`List.insertionSort` with the reflexive relation `a.start ≤ b.start` is
the stable sort for that comparator). -/
def sortByStart (highlights : List Highlight) : List Highlight :=
  List.insertionSort (fun a b => a.start ≤ b.start) highlights

/-- The sweep loop of `segmentText`: walks the (sorted) highlight list
with a cursor, skipping highlights that start past the content or end
at or before the cursor, clamping the range, emitting a plain gap
segment and then the highlighted segment, and finally a plain tail. -/
def segmentLoop (content : List Char) : Int → List Highlight → List TextSegment
  | cursor, [] =>
    if cursor < (content.length : Int) then
      [⟨jsSlice content cursor content.length, none, cursor, content.length⟩]
    else []
  | cursor, hl :: rest =>
    if (content.length : Int) ≤ hl.start ∨ hl.stop ≤ cursor then
      segmentLoop content cursor rest
    else
      let s := max hl.start cursor
      let e := min hl.stop (content.length : Int)
      (if cursor < s then
        [⟨jsSlice content cursor s, none, cursor, s⟩]
      else []) ++
      ⟨jsSlice content s e, some hl, s, e⟩ :: segmentLoop content e rest

/-- `segmentText(content, highlights)` of `DocumentViewer`: empty
content yields no segments (`if (!content) return []`), no highlights
yields a single whole-content segment, otherwise the sweep over the
highlights sorted by `start`. -/
def segmentText (content : List Char) (highlights : List Highlight) : List TextSegment :=
  if content = [] then []
  else if highlights = [] then
    [⟨content, none, 0, content.length⟩]
  else
    segmentLoop content 0 (sortByStart highlights)

/-- The `Comment` interface of `DocumentContext`. -/
structure Comment where
  id : String
  highlightId : String
  text : String
  createdAt : Int
deriving DecidableEq, Repr

/-- The `ChatMessage` interface of `DocumentContext`. -/
structure ChatMessage where
  id : String
  role : String
  content : String
  citedHighlightIds : Option (List String) := none
  createdAt : Int
deriving DecidableEq, Repr

/-- The `DocumentState` interface of `DocumentContext`. -/
structure DocumentState where
  content : String
  highlights : List Highlight
  comments : List Comment
  messages : List ChatMessage
  scrollToHighlightId : Option String
  focusedHighlightId : Option String
  isLoading : Bool
deriving DecidableEq, Repr

/-- The `DocumentAction` tagged union of `DocumentContext`. -/
inductive DocumentAction where
  | setContent (payload : String)
  | addHighlight (payload : Highlight)
  | removeHighlight (payload : String)
  | clearHighlights
  | addComment (payload : Comment)
  | removeComment (payload : String)
  | addMessage (payload : ChatMessage)
  | clearMessages
  | scrollToHighlight (payload : Option String)
  | setFocusedHighlight (payload : Option String)
  | setLoading (payload : Bool)
  | reset
deriving DecidableEq, Repr

/-- The `initialState` constant of `DocumentContext`. -/
def initialState : DocumentState :=
  { content := ""
    highlights := []
    comments := []
    messages := []
    scrollToHighlightId := none
    focusedHighlightId := none
    isLoading := false }

/-- The `documentReducer` of `DocumentContext`, case for case. -/
def documentReducer (state : DocumentState) : DocumentAction → DocumentState
  | .setContent payload => { state with content := payload }
  | .addHighlight payload =>
    { state with highlights := state.highlights ++ [payload] }
  | .removeHighlight payload =>
    { state with
        highlights := state.highlights.filter (fun h => h.id != payload)
        comments := state.comments.filter (fun c => c.highlightId != payload) }
  | .clearHighlights => { state with highlights := [], comments := [] }
  | .addComment payload => { state with comments := state.comments ++ [payload] }
  | .removeComment payload =>
    { state with comments := state.comments.filter (fun c => c.id != payload) }
  | .addMessage payload => { state with messages := state.messages ++ [payload] }
  | .clearMessages => { state with messages := [] }
  | .scrollToHighlight payload => { state with scrollToHighlightId := payload }
  | .setFocusedHighlight payload => { state with focusedHighlightId := payload }
  | .setLoading payload => { state with isLoading := payload }
  | .reset => initialState

/-- A state reachable from `initialState` by dispatching a sequence of
actions through `documentReducer`. -/
def reachableState (s : DocumentState) : Prop :=
  ∃ actions : List DocumentAction, s = actions.foldl documentReducer initialState

/-- Referential integrity of a state: every comment's `highlightId` is
the id of a highlight present in the same state. -/
def commentsLinked (s : DocumentState) : Prop :=
  ∀ c ∈ s.comments, ∃ h ∈ s.highlights, h.id = c.highlightId

instance (s : DocumentState) : Decidable (commentsLinked s) := by
  unfold commentsLinked; infer_instance

/-- An action sequence is reference-respecting from `s` when every
`ADD_COMMENT` in it names a highlight that exists in the state the
action is applied to (the discipline the collaborating UI follows: a
comment is only ever created on an existing highlight). -/
def actionRefOk (s : DocumentState) : DocumentAction → Bool
  | .addComment c => s.highlights.any (fun h => h.id == c.highlightId)
  | _ => true

def refOk (s : DocumentState) : List DocumentAction → Bool
  | [] => true
  | a :: rest => actionRefOk s a && refOk (documentReducer s a) rest

/-- A validated citation range (`TextRange` in `ChatSidebar`). -/
structure TextRange where
  start : Int
  stop : Int
deriving DecidableEq, Repr

/-- Exact value of a digit string, modelling `Number("<digits>")` (the
captures of `CITATION_REGEX` are `\d+`, so the result is never `NaN`). -/
def digitsToNat (ds : List Char) : Nat :=
  ds.foldl (fun acc c => acc * 10 + (c.toNat - 48)) 0

/-- Progress of the scan for `CITATION_REGEX = /\[(\d+):(\d+)\]/g` at
the current position: outside any candidate match, after `[` with the
digits read so far, or after `[digits:` with the second digit group
read so far.  Because a candidate match consists of `[`, digits and `:`
only — none of which can start a new match except `[`, which the
mismatch branches below re-enter — this single left-to-right pass finds
exactly the non-overlapping matches that `matchAll` finds. -/
inductive ScanState where
  | outside
  | sawOpen (ds : List Char)
  | sawColon (ds1 ds2 : List Char)
deriving DecidableEq, Repr

/-- The character scan behind `extractCitations`: emits, in order of
appearance, the `(start, end)` pair of every full `[d+:d+]` match whose
range satisfies `end > start` (`Number.isNaN` is never true on a `\d+`
capture, so the guard in the source reduces to `end > start`). -/
def scanCitations : ScanState → List Char → List TextRange
  | st, [] =>
    match st with
    | _ => []
  | .outside, c :: cs =>
    if c = '[' then scanCitations (.sawOpen []) cs
    else scanCitations .outside cs
  | .sawOpen ds, c :: cs =>
    if c.isDigit then scanCitations (.sawOpen (ds ++ [c])) cs
    else if c = ':' ∧ ds ≠ [] then scanCitations (.sawColon ds []) cs
    else if c = '[' then scanCitations (.sawOpen []) cs
    else scanCitations .outside cs
  | .sawColon ds1 ds2, c :: cs =>
    if c.isDigit then scanCitations (.sawColon ds1 (ds2 ++ [c])) cs
    else if c = ']' ∧ ds2 ≠ [] then
      (if (digitsToNat ds1 : Int) < (digitsToNat ds2 : Int) then
        [⟨(digitsToNat ds1 : Int), (digitsToNat ds2 : Int)⟩]
      else []) ++ scanCitations .outside cs
    else if c = '[' then scanCitations (.sawOpen []) cs
    else scanCitations .outside cs

/-- `extractCitations(text)` of `ChatSidebar`. -/
def extractCitations (text : List Char) : List TextRange :=
  scanCitations .outside text

/-- The raw characters a pending candidate match has consumed; they are
emitted verbatim when the candidate fails (`String.prototype.replace`
only deletes completed matches). -/
def pendingChars : ScanState → List Char
  | .outside => []
  | .sawOpen ds => '[' :: ds
  | .sawColon ds1 ds2 => '[' :: ds1 ++ ':' :: ds2

/-- The character scan behind `text.replace(CITATION_REGEX, "")`:
identical match detection to `scanCitations`, but keeps every character
that is not part of a completed `[d+:d+]` match (completed matches are
dropped whether or not their range is inverted). -/
def stripScan : ScanState → List Char → List Char
  | st, [] => pendingChars st
  | .outside, c :: cs =>
    if c = '[' then stripScan (.sawOpen []) cs
    else c :: stripScan .outside cs
  | .sawOpen ds, c :: cs =>
    if c.isDigit then stripScan (.sawOpen (ds ++ [c])) cs
    else if c = ':' ∧ ds ≠ [] then stripScan (.sawColon ds []) cs
    else if c = '[' then ('[' :: ds) ++ stripScan (.sawOpen []) cs
    else ('[' :: ds) ++ c :: stripScan .outside cs
  | .sawColon ds1 ds2, c :: cs =>
    if c.isDigit then stripScan (.sawColon ds1 (ds2 ++ [c])) cs
    else if c = ']' ∧ ds2 ≠ [] then stripScan .outside cs
    else if c = '[' then pendingChars (.sawColon ds1 ds2) ++ stripScan (.sawOpen []) cs
    else pendingChars (.sawColon ds1 ds2) ++ c :: stripScan .outside cs

/-- JavaScript's `\s` character class (ASCII whitespace plus the
Unicode space separators, NBSP, BOM and the line/paragraph
separators). -/
def isJsWs (c : Char) : Bool :=
  c = ' ' || c = '\t' || c = '\n' || c = '\r' ||
  c.toNat = 11 || c.toNat = 12 || c.toNat = 0xa0 || c.toNat = 0x1680 ||
  (0x2000 ≤ c.toNat && c.toNat ≤ 0x200a) ||
  c.toNat = 0x2028 || c.toNat = 0x2029 || c.toNat = 0x202f ||
  c.toNat = 0x205f || c.toNat = 0x3000 || c.toNat = 0xfeff

/-- State of the whitespace-collapsing scan for
`.replace(/\s{2,}/g, " ")`: not inside a whitespace run, inside a run
of exactly one character `c`, or inside a run of two or more. -/
inductive WsRun where
  | noRun
  | oneWs (c : Char)
  | manyWs
deriving DecidableEq, Repr

/-- What a finished whitespace run contributes to the output: a
single whitespace character is kept verbatim (the regex needs at least
two), a longer run becomes one space. -/
def flushWs : WsRun → List Char
  | .noRun => []
  | .oneWs c => [c]
  | .manyWs => [' ']

/-- The scan behind `.replace(/\s{2,}/g, " ")`: each maximal run of
two or more whitespace characters becomes a single space. -/
def collapseWsScan : WsRun → List Char → List Char
  | run, [] => flushWs run
  | run, c :: cs =>
    if isJsWs c then
      collapseWsScan (match run with | .noRun => .oneWs c | _ => .manyWs) cs
    else
      flushWs run ++ c :: collapseWsScan .noRun cs

/-- `String.prototype.trim()`: drop JavaScript whitespace from both
ends. -/
def jsTrim (s : List Char) : List Char :=
  ((s.dropWhile isJsWs).reverse.dropWhile isJsWs).reverse

/-- `stripCitations(text)` of `ChatSidebar`:
`text.replace(CITATION_REGEX, "").replace(/\s{2,}/g, " ").trim()`. -/
def stripCitations (text : List Char) : List Char :=
  jsTrim (collapseWsScan .noRun (stripScan .outside text))

/-- `handleJumpToSource(range)` of `ChatSidebar`, as a state
transformer.  `freshId` stands for the id the handler generates from
`Date.now()` and `Math.random()`; the lookup compares `start`/`end`
exactly, a miss appends a new blue highlight through the reducer, and
in both cases the scroll target and the focus are set to the resulting
id. -/
def handleJumpToSource (range : TextRange) (freshId : String) (st : DocumentState) :
    DocumentState :=
  let existing := st.highlights.find? (fun h => h.start == range.start && h.stop == range.stop)
  let highlightId := match existing with | some h => h.id | none => freshId
  let st1 := match existing with
    | some _ => st
    | none =>
      documentReducer st (.addHighlight ⟨freshId, range.start, range.stop, some "blue"⟩)
  documentReducer (documentReducer st1 (.scrollToHighlight (some highlightId)))
    (.setFocusedHighlight (some highlightId))

/-- The scroll effect of `DocumentViewer`, restricted to its effect on
`focusedHighlightId`: with a scroll target set, the focus moves to the
target only when a rendered element for it exists (`highlightRefs` is
modelled by the list of ids that have a rendered span); otherwise — in
particular for a dangling id — the effect does nothing. -/
def scrollEffectFocus (scrollToHighlightId : Option String) (renderedIds : List String)
    (focusedHighlightId : Option String) : Option String :=
  match scrollToHighlightId with
  | none => focusedHighlightId
  | some id => if id ∈ renderedIds then some id else focusedHighlightId

/-- The value returned by the `getDocumentExcerpt` tool of the chat
route.  The TypeScript field `end` is called `stop`. -/
structure ExcerptResult where
  start : Int
  stop : Int
  text : List Char
deriving DecidableEq, Repr

/-- The `execute` body of the `getDocumentExcerpt` tool in
`src/app/api/chat/route.ts`: clamp `start` into the document, clamp
`end` at or after the clamped start, widen by the optional padding, and
slice. -/
def getDocumentExcerpt (document : List Char) (start stop : Int) (padding : Option Int) :
    ExcerptResult :=
  if document = [] then ⟨0, 0, []⟩
  else
    let pad := padding.getD 0
    let len : Int := document.length
    let safeStart := max 0 (min start len)
    let safeEnd := max safeStart (min stop len)
    let excerptStart := max 0 (safeStart - pad)
    let excerptEnd := min len (safeEnd + pad)
    ⟨safeStart, safeEnd, jsSlice document excerptStart excerptEnd⟩

/-- Adjacency invariant for segment lists: starting at offset `a`, each
segment begins where its predecessor ended, never shrinks past its own
start, stays inside the content, carries exactly the slice of content
its range names, and the last segment ends at `content.length`. -/
def chainSegs (content : List Char) : Int → List TextSegment → Prop
  | a, [] => a = (content.length : Int)
  | a, seg :: rest =>
    seg.start = a ∧ a ≤ seg.stop ∧ seg.stop ≤ (content.length : Int) ∧
    seg.text = jsSlice content seg.start seg.stop ∧ chainSegs content seg.stop rest

theorem jsSlice_empty_of_eq (s : List Char) (a : Int) : jsSlice s a a = [] := by
  apply List.drop_eq_nil_of_le
  simp [Nat.min_le_left]

theorem jsSlice_zero_length (s : List Char) : jsSlice s 0 s.length = s := by
  simp [jsSlice]

theorem jsSlice_append (s : List Char) (a b c : Int) (hab : a ≤ b) (hbc : b ≤ c) :
    jsSlice s a b ++ jsSlice s b c = jsSlice s a c := by
  have hA : a.toNat ≤ b.toNat := Int.toNat_le_toNat hab
  have hB : b.toNat ≤ c.toNat := Int.toNat_le_toNat hbc
  have hdrop : List.drop (b.toNat - a.toNat) (List.drop a.toNat s) = List.drop b.toNat s := by
    rw [List.drop_drop]; congr 1; omega
  simp only [jsSlice, List.drop_take]
  rw [show c.toNat - a.toNat = (b.toNat - a.toNat) + (c.toNat - b.toNat) by omega,
    List.take_add, hdrop]

theorem jsSlice_middle (s : List Char) (a b : Int) :
    ∃ pre post, s = pre ++ jsSlice s a b ++ post := by
  refine ⟨(s.take b.toNat).take a.toNat, s.drop b.toNat, ?_⟩
  rw [jsSlice, List.take_append_drop, List.take_append_drop]

theorem segmentLoop_chain (content : List Char) :
    ∀ (hs : List Highlight) (cursor : Int),
      0 ≤ cursor → cursor ≤ (content.length : Int) →
      (∀ h ∈ hs, h.start ≤ h.stop) →
      chainSegs content cursor (segmentLoop content cursor hs) := by
  intro hs
  induction hs with
  | nil =>
    intro cursor h0 hle _
    simp only [segmentLoop]
    split
    · exact ⟨rfl, le_of_lt ‹_›, le_refl _, rfl, rfl⟩
    · show cursor = _
      omega
  | cons hl rest ih =>
    intro cursor h0 hle hvalid
    have hhl : hl.start ≤ hl.stop := hvalid hl (List.mem_cons_self _ _)
    have hrest : ∀ h ∈ rest, h.start ≤ h.stop :=
      fun h hh => hvalid h (List.mem_cons_of_mem _ hh)
    simp only [segmentLoop]
    split
    · exact ih cursor h0 hle hrest
    · rename_i hcond
      have hstart : hl.start < (content.length : Int) := by omega
      have hstop : cursor < hl.stop := by omega
      have hse : max hl.start cursor ≤ min hl.stop (content.length : Int) := by omega
      have htail := ih (min hl.stop (content.length : Int)) (by omega) (by omega) hrest
      have h3 : max hl.start cursor ≤ (content.length : Int) := by omega
      have h7 : min hl.stop (content.length : Int) ≤ (content.length : Int) := by omega
      have h6 : cursor ≤ min hl.stop (content.length : Int) := by omega
      by_cases hgap : cursor < max hl.start cursor
      · rw [if_pos hgap, List.singleton_append]
        exact ⟨rfl, le_of_lt hgap, h3, rfl, rfl, hse, h7, rfl, htail⟩
      · rw [if_neg hgap, List.nil_append]
        have hcur : max hl.start cursor = cursor := by omega
        exact ⟨hcur, h6, h7, rfl, htail⟩

theorem chainSegs_le_start (content : List Char) :
    ∀ (l : List TextSegment) (a : Int), chainSegs content a l → ∀ t ∈ l, a ≤ t.start := by
  intro l
  induction l with
  | nil => intro a _ t ht; cases ht
  | cons s rest ih =>
    intro a hc t ht
    obtain ⟨hstart, hse, _, _, hrest⟩ := hc
    rcases List.mem_cons.mp ht with rfl | ht'
    · omega
    · have := ih s.stop hrest t ht'
      omega

theorem chainSegs_pairwise (content : List Char) :
    ∀ (l : List TextSegment) (a : Int), chainSegs content a l →
      List.Pairwise (fun s t => s.stop ≤ t.start) l := by
  intro l
  induction l with
  | nil => intro a _; exact List.Pairwise.nil
  | cons s rest ih =>
    intro a hc
    obtain ⟨_, _, _, _, hrest⟩ := hc
    exact List.Pairwise.cons (chainSegs_le_start content rest s.stop hrest) (ih s.stop hrest)

theorem chainSegs_flatten (content : List Char) :
    ∀ (l : List TextSegment) (a : Int), 0 ≤ a → chainSegs content a l →
      ((l.map TextSegment.text).flatten) = jsSlice content a content.length := by
  intro l
  induction l with
  | nil =>
    intro a _ hc
    have : a = (content.length : Int) := hc
    rw [this, jsSlice_empty_of_eq]
    rfl
  | cons s rest ih =>
    intro a h0 hc
    obtain ⟨hstart, hse, hlen, htext, hrest⟩ := hc
    have hflat := ih s.stop (by omega) hrest
    simp only [List.map_cons, List.flatten_cons, hflat, htext, hstart]
    exact jsSlice_append content a s.stop content.length hse hlen

/-- The amended C1: for every content and every list of highlights in
which each highlight satisfies `start ≤ end`, the segments produced by
`segmentText` are pairwise disjoint and in ascending document order
(each segment ends at or before the next begins) and their concatenated
text is exactly the content. -/
theorem segmentText_partition (content : List Char) (hs : List Highlight)
    (hvalid : ∀ h ∈ hs, h.start ≤ h.stop) :
    List.Pairwise (fun s t => s.stop ≤ t.start) (segmentText content hs) ∧
    ((segmentText content hs).map TextSegment.text).flatten = content := by
  unfold segmentText
  split
  · rename_i hc
    subst hc
    exact ⟨List.Pairwise.nil, rfl⟩
  · split
    · exact ⟨List.pairwise_singleton _ _, by simp⟩
    · have hvalid' : ∀ h ∈ sortByStart hs, h.start ≤ h.stop := by
        intro h hh
        rw [sortByStart, List.mem_insertionSort] at hh
        exact hvalid h hh
      have hchain := segmentLoop_chain content (sortByStart hs) 0 le_rfl
        (Int.natCast_nonneg _) hvalid'
      refine ⟨chainSegs_pairwise content _ 0 hchain, ?_⟩
      rw [chainSegs_flatten content _ 0 le_rfl hchain, jsSlice_zero_length]

/-- Counterexample to C1 as stated: with the inverted highlight
`{start: 5, end: 3}` over `"abcdef"`, the sweep cursor moves backwards
and the output is neither disjoint/ordered nor a partition of the
content (its concatenation is `"abcdedef"`). -/
theorem segmentText_partition_cex :
    ¬ (List.Pairwise (fun s t => s.stop ≤ t.start)
          (segmentText (String.toList "abcdef") [⟨"h1", 5, 3, none⟩]) ∧
        ((segmentText (String.toList "abcdef") [⟨"h1", 5, 3, none⟩]).map
            TextSegment.text).flatten = String.toList "abcdef") := by
  decide

/-- Witness for `segmentText_partition` at a concrete input. -/
theorem segmentText_partition_witness :
    (∀ h ∈ [(⟨"a", 1, 5, none⟩ : Highlight), ⟨"b", 3, 7, none⟩], h.start ≤ h.stop) ∧
    (List.Pairwise (fun s t => s.stop ≤ t.start)
        (segmentText (String.toList "abcdefgh") [⟨"a", 1, 5, none⟩, ⟨"b", 3, 7, none⟩]) ∧
      ((segmentText (String.toList "abcdefgh") [⟨"a", 1, 5, none⟩, ⟨"b", 3, 7, none⟩]).map
          TextSegment.text).flatten = String.toList "abcdefgh") :=
  ⟨by decide, segmentText_partition _ _ (by decide)⟩

/-- Counterexample to C8 as stated: for the empty content string the
code returns no segments at all (`if (!content) return []`), not one
whole-content segment. -/
theorem segmentText_noHighlights_cex :
    segmentText ([] : List Char) [] ≠ [⟨[], none, 0, 0⟩] := by
  decide

/-- The amended C8: for every non-empty content string,
`segmentText(content, [])` is exactly one segment spanning the whole
content, with no highlight, start `0` and end `content.length`. -/
theorem segmentText_noHighlights (content : List Char) (h : content ≠ []) :
    segmentText content [] = [⟨content, none, 0, content.length⟩] := by
  simp [segmentText, h]

/-- Witness for `segmentText_noHighlights` at a concrete input. -/
theorem segmentText_noHighlights_witness :
    String.toList "ab" ≠ [] ∧
      segmentText (String.toList "ab") []
        = [⟨String.toList "ab", none, 0, (String.toList "ab").length⟩] :=
  ⟨by decide, segmentText_noHighlights _ (by decide)⟩

/-- C6: `REMOVE_HIGHLIGHT(i)` keeps exactly the highlights whose id
differs from `i` and exactly the comments whose `highlightId` differs
from `i`, and leaves every other field of the state unchanged. -/
theorem documentReducer_removeHighlight_frame (st : DocumentState) (i : String) :
    (documentReducer st (.removeHighlight i)).highlights
        = st.highlights.filter (fun h => h.id != i) ∧
    (documentReducer st (.removeHighlight i)).comments
        = st.comments.filter (fun c => c.highlightId != i) ∧
    (documentReducer st (.removeHighlight i)).content = st.content ∧
    (documentReducer st (.removeHighlight i)).messages = st.messages ∧
    (documentReducer st (.removeHighlight i)).scrollToHighlightId = st.scrollToHighlightId ∧
    (documentReducer st (.removeHighlight i)).focusedHighlightId = st.focusedHighlightId ∧
    (documentReducer st (.removeHighlight i)).isLoading = st.isLoading :=
  ⟨rfl, rfl, rfl, rfl, rfl, rfl, rfl⟩

/-- C9: when the scroll target names an id with no rendered highlight
element, the scroll effect leaves the focused highlight unchanged. -/
theorem scrollEffectFocus_dangling (id : String) (renderedIds : List String)
    (focused : Option String) (h : id ∉ renderedIds) :
    scrollEffectFocus (some id) renderedIds focused = focused := by
  simp [scrollEffectFocus, h]

/-- Witness for `scrollEffectFocus_dangling` at a concrete input. -/
theorem scrollEffectFocus_dangling_witness :
    "hl-9" ∉ ["hl-1", "hl-2"] ∧
      scrollEffectFocus (some "hl-9") ["hl-1", "hl-2"] (some "hl-1") = some "hl-1" :=
  ⟨by decide, scrollEffectFocus_dangling _ _ _ (by decide)⟩

/-- C3: on `"See [10:20] and [5:2]."` the extractor accepts exactly the
citation `{start: 10, end: 20}` — the inverted `[5:2]` is silently
discarded — and the stripper removes both bracket patterns, collapses
whitespace runs and trims, yielding `"See and ."`. -/
theorem citations_concrete :
    extractCitations (String.toList "See [10:20] and [5:2].") = [⟨10, 20⟩] ∧
    stripCitations (String.toList "See [10:20] and [5:2].") = String.toList "See and ." := by
  decide

theorem scanCitations_mono (p : List Char) :
    ∀ (st : ScanState) (ds : List Char),
      ∃ r, scanCitations st (p ++ ds) = scanCitations st p ++ r := by
  induction p with
  | nil => intro st ds; exact ⟨scanCitations st ds, by simp [scanCitations]⟩
  | cons c cs ih =>
    intro st ds
    rw [List.cons_append]
    cases st with
    | outside =>
      simp only [scanCitations]
      split_ifs <;> exact ih _ _
    | sawOpen ds1 =>
      simp only [scanCitations]
      split_ifs <;> exact ih _ _
    | sawColon ds1 ds2 =>
      simp only [scanCitations]
      split_ifs <;>
        first
          | exact ih _ _
          | · obtain ⟨r, hr⟩ := ih (.outside) ds
              exact ⟨r, by rw [hr, List.append_assoc]⟩

/-- C4: extraction is monotone under extension — the citations of any
prefix are an initial run of the citations of the full text, in the
same order — and a text ending in a truncated trailing marker yields
simply no citation for that marker. -/
theorem extractCitations_monotone :
    (∀ p ds : List Char, ∃ r, extractCitations (p ++ ds) = extractCitations p ++ r) ∧
    extractCitations (String.toList "The answer is [120:1") = [] :=
  ⟨fun p ds => scanCitations_mono p .outside ds, by decide⟩

/-- C10: for any document and any non-negative integer `start`/`end`
(and arbitrary optional padding), `getDocumentExcerpt` returns clamped
bounds `0 ≤ start' ≤ end' ≤ document.length` and a text that is a
contiguous slice of the document; the function is total. -/
theorem getDocumentExcerpt_safe (document : List Char) (start stop : Int)
    (padding : Option Int) (_hstart : 0 ≤ start) (_hstop : 0 ≤ stop) :
    0 ≤ (getDocumentExcerpt document start stop padding).start ∧
    (getDocumentExcerpt document start stop padding).start
        ≤ (getDocumentExcerpt document start stop padding).stop ∧
    (getDocumentExcerpt document start stop padding).stop ≤ (document.length : Int) ∧
    ∃ pre post,
      document = pre ++ (getDocumentExcerpt document start stop padding).text ++ post := by
  unfold getDocumentExcerpt
  split
  · rename_i hd
    refine ⟨le_rfl, le_rfl, Int.natCast_nonneg _, [], [], ?_⟩
    simp [hd]
  · refine ⟨?_, ?_, ?_, jsSlice_middle _ _ _⟩ <;> dsimp only <;> omega

/-- Witness for `getDocumentExcerpt_safe` at a concrete input. -/
theorem getDocumentExcerpt_safe_witness :
    (0 ≤ (2 : Int) ∧ 0 ≤ (10 : Int)) ∧
    (0 ≤ (getDocumentExcerpt (String.toList "hello") 2 10 (some 1)).start ∧
      (getDocumentExcerpt (String.toList "hello") 2 10 (some 1)).start
          ≤ (getDocumentExcerpt (String.toList "hello") 2 10 (some 1)).stop ∧
      (getDocumentExcerpt (String.toList "hello") 2 10 (some 1)).stop
          ≤ ((String.toList "hello").length : Int) ∧
      ∃ pre post,
        String.toList "hello"
          = pre ++ (getDocumentExcerpt (String.toList "hello") 2 10 (some 1)).text ++ post) :=
  ⟨⟨by decide, by decide⟩, getDocumentExcerpt_safe _ _ _ _ (by decide) (by decide)⟩

/-- Counterexample to C7 as stated: `ADD_COMMENT` does not verify that
its `highlightId` exists, so a single action from the initial state
reaches a state holding a comment with no matching highlight. -/
theorem commentsLinked_reachable_cex :
    ∃ s, reachableState s ∧ ¬ commentsLinked s := by
  refine ⟨documentReducer initialState (.addComment ⟨"c1", "missing", "hi", 0⟩),
    ⟨[.addComment ⟨"c1", "missing", "hi", 0⟩], rfl⟩, ?_⟩
  decide

theorem commentsLinked_step (s : DocumentState) (a : DocumentAction)
    (hs : commentsLinked s)
    (ha : ∀ c, a = .addComment c → ∃ h ∈ s.highlights, h.id = c.highlightId) :
    commentsLinked (documentReducer s a) := by
  cases a with
  | setContent p => exact hs
  | addHighlight p =>
    intro c hc
    obtain ⟨h, hmem, hid⟩ := hs c hc
    exact ⟨h, List.mem_append_left _ hmem, hid⟩
  | removeHighlight p =>
    intro c hc
    simp only [documentReducer, List.mem_filter] at hc
    obtain ⟨hcmem, hcne⟩ := hc
    obtain ⟨h, hmem, hid⟩ := hs c hcmem
    refine ⟨h, List.mem_filter.mpr ⟨hmem, ?_⟩, hid⟩
    simpa [hid] using hcne
  | clearHighlights => intro c hc; cases hc
  | addComment c0 =>
    intro c hc
    rcases List.mem_append.mp hc with hc' | hc'
    · exact hs c hc'
    · rcases List.mem_singleton.mp hc' with rfl
      exact ha c rfl
  | removeComment p =>
    intro c hc
    exact hs c (List.mem_filter.mp hc).1
  | addMessage p => exact hs
  | clearMessages => exact hs
  | scrollToHighlight p => exact hs
  | setFocusedHighlight p => exact hs
  | setLoading p => exact hs
  | reset => intro c hc; cases hc

theorem commentsLinked_foldl (acts : List DocumentAction) :
    ∀ s : DocumentState, commentsLinked s → refOk s acts = true →
      commentsLinked (acts.foldl documentReducer s) := by
  induction acts with
  | nil => intro s hs _; exact hs
  | cons a rest ih =>
    intro s hs hok
    rw [refOk, Bool.and_eq_true] at hok
    refine ih (documentReducer s a) ?_ hok.2
    apply commentsLinked_step s a hs
    intro c hc
    subst hc
    have h1 : s.highlights.any (fun h => h.id == c.highlightId) = true := hok.1
    rw [List.any_eq_true] at h1
    obtain ⟨h, hmem, heq⟩ := h1
    exact ⟨h, hmem, beq_iff_eq.mp heq⟩

/-- The amended C7: along any action sequence from the initial empty
state in which every `ADD_COMMENT` names a highlight existing at the
moment it is dispatched, every comment of every reached state has a
highlightId equal to the id of a highlight present in that state
(comments never outlive their highlight). -/
theorem commentsLinked_reachable (acts : List DocumentAction)
    (hok : refOk initialState acts = true) :
    commentsLinked (acts.foldl documentReducer initialState) := by
  apply commentsLinked_foldl acts initialState ?_ hok
  intro c hc
  cases hc

/-- Witness for `commentsLinked_reachable` at a concrete action list. -/
theorem commentsLinked_reachable_witness :
    refOk initialState
        [.addHighlight ⟨"h1", 0, 2, none⟩, .addComment ⟨"c1", "h1", "note", 0⟩] = true ∧
      commentsLinked
        ([DocumentAction.addHighlight ⟨"h1", 0, 2, none⟩,
          DocumentAction.addComment ⟨"c1", "h1", "note", 0⟩].foldl
            documentReducer initialState) :=
  ⟨by decide, commentsLinked_reachable _ (by decide)⟩

theorem handleJumpToSource_highlights_miss (st : DocumentState) (range : TextRange)
    (freshId : String)
    (hfind : st.highlights.find?
        (fun h => h.start == range.start && h.stop == range.stop) = none) :
    (handleJumpToSource range freshId st).highlights
        = st.highlights ++ [⟨freshId, range.start, range.stop, some "blue"⟩] := by
  simp only [handleJumpToSource, hfind, documentReducer]

theorem handleJumpToSource_highlights_hit (st : DocumentState) (range : TextRange)
    (freshId : String) (h : Highlight)
    (hfind : st.highlights.find?
        (fun h => h.start == range.start && h.stop == range.stop) = some h) :
    (handleJumpToSource range freshId st).highlights = st.highlights := by
  simp only [handleJumpToSource, hfind, documentReducer]

/-- C5: activating the same citation range twice — the second
`handleJumpToSource` call seeing the state the first produced — yields
exactly one highlight whose range equals the citation, not two: the
second call leaves the highlight list unchanged. -/
theorem handleJumpToSource_idem (st : DocumentState) (range : TextRange)
    (id1 id2 : String)
    (h0 : ∀ h ∈ st.highlights, ¬(h.start = range.start ∧ h.stop = range.stop)) :
    (handleJumpToSource range id2 (handleJumpToSource range id1 st)).highlights
        = (handleJumpToSource range id1 st).highlights ∧
    ((handleJumpToSource range id2 (handleJumpToSource range id1 st)).highlights.filter
        (fun h => h.start == range.start && h.stop == range.stop)).length = 1 := by
  have hfalse : ∀ h ∈ st.highlights,
      (h.start == range.start && h.stop == range.stop) = false := by
    intro h hh
    rw [Bool.and_eq_false_iff]
    by_cases hs : h.start = range.start
    · right
      rw [beq_eq_false_iff_ne]
      intro hs'
      exact h0 h hh ⟨hs, hs'⟩
    · left
      rw [beq_eq_false_iff_ne]
      exact hs
  have hfind1 : st.highlights.find?
      (fun h => h.start == range.start && h.stop == range.stop) = none :=
    List.find?_eq_none.mpr (fun x hx => by rw [hfalse x hx]; exact Bool.false_ne_true)
  have hone : ((⟨id1, range.start, range.stop, some "blue"⟩ : Highlight).start == range.start
      && (⟨id1, range.start, range.stop, some "blue"⟩ : Highlight).stop == range.stop) = true := by
    simp
  have h1 := handleJumpToSource_highlights_miss st range id1 hfind1
  have hfind2 : (handleJumpToSource range id1 st).highlights.find?
      (fun h => h.start == range.start && h.stop == range.stop)
        = some ⟨id1, range.start, range.stop, some "blue"⟩ := by
    rw [h1, List.find?_append, hfind1, Option.none_or]
    simp only [List.find?_cons, hone]
  constructor
  · exact handleJumpToSource_highlights_hit _ range id2 _ hfind2
  · rw [handleJumpToSource_highlights_hit _ range id2 _ hfind2, h1,
      List.filter_append, List.filter_eq_nil_iff.mpr
        (fun x hx => by rw [hfalse x hx]; exact Bool.false_ne_true)]
    simp [hone]

/-- Witness for `handleJumpToSource_idem` at a concrete input. -/
theorem handleJumpToSource_idem_witness :
    (∀ h ∈ initialState.highlights, ¬(h.start = (12 : Int) ∧ h.stop = (30 : Int))) ∧
    ((handleJumpToSource ⟨12, 30⟩ "id-b" (handleJumpToSource ⟨12, 30⟩ "id-a" initialState)).highlights
        = (handleJumpToSource ⟨12, 30⟩ "id-a" initialState).highlights ∧
      ((handleJumpToSource ⟨12, 30⟩ "id-b"
            (handleJumpToSource ⟨12, 30⟩ "id-a" initialState)).highlights.filter
          (fun h => h.start == (⟨12, 30⟩ : TextRange).start
            && h.stop == (⟨12, 30⟩ : TextRange).stop)).length = 1) :=
  ⟨by decide, handleJumpToSource_idem initialState ⟨12, 30⟩ "id-a" "id-b" (by decide)⟩

theorem segmentLoop_pair_eq (content : List Char) (h1 h2 : Highlight)
    (ha0 : 0 ≤ h1.start) (ha : h1.start < h1.stop) (hal : h1.stop ≤ (content.length : Int))
    (hb : h2.start < h2.stop) (hbl : h2.stop ≤ (content.length : Int))
    (horder : h1.start < h2.start) (hover : h2.start < h1.stop) :
    segmentLoop content 0 [h1, h2] =
      (if (0 : Int) < h1.start then
        [⟨jsSlice content 0 h1.start, none, 0, h1.start⟩] else []) ++
      ⟨jsSlice content h1.start h1.stop, some h1, h1.start, h1.stop⟩ ::
      (if h1.stop < h2.stop then
        ⟨jsSlice content h1.stop h2.stop, some h2, h1.stop, h2.stop⟩ ::
          (if h2.stop < (content.length : Int) then
            [⟨jsSlice content h2.stop content.length, none, h2.stop, content.length⟩]
          else [])
      else
        (if h1.stop < (content.length : Int) then
          [⟨jsSlice content h1.stop content.length, none, h1.stop, content.length⟩]
        else [])) := by
  have hmax1 : max h1.start (0 : Int) = h1.start := by omega
  have hmin1 : min h1.stop (content.length : Int) = h1.stop := by omega
  have hmax2 : max h2.start h1.stop = h1.stop := by omega
  have hmin2 : min h2.stop (content.length : Int) = h2.stop := by omega
  simp only [segmentLoop, hmax1, hmin1, hmax2, hmin2]
  split_ifs <;> first | rfl | omega

/-- C2: for two overlapping in-bounds highlights, the one with the
smaller `start` owns every position of the contested region, the
later-starting highlight is emitted only as the single segment
`[h1.end, h2.end)` beyond that region, and it is not emitted at all
when its range is fully consumed. -/
theorem segmentText_overlap (content : List Char) (h1 h2 : Highlight)
    (hs : List Highlight)
    (ha0 : 0 ≤ h1.start) (ha : h1.start < h1.stop) (hal : h1.stop ≤ (content.length : Int))
    (hb : h2.start < h2.stop) (hbl : h2.stop ≤ (content.length : Int))
    (horder : h1.start < h2.start) (hover : h2.start < h1.stop)
    (hpair : hs = [h1, h2] ∨ hs = [h2, h1]) :
    (∀ i : Int, h2.start ≤ i → i < min h1.stop h2.stop →
      ∃ s ∈ segmentText content hs, s.highlight = some h1 ∧ s.start ≤ i ∧ i < s.stop) ∧
    (∀ s ∈ segmentText content hs, s.highlight = some h2 →
      s.start = h1.stop ∧ s.stop = h2.stop) ∧
    (h2.stop ≤ h1.stop → ∀ s ∈ segmentText content hs, s.highlight ≠ some h2) := by
  have hlen0 : 0 < (content.length : Int) := by omega
  have hcne : content ≠ [] := by
    intro hc
    rw [hc] at hlen0
    simp at hlen0
  have hsort : sortByStart hs = [h1, h2] := by
    rcases hpair with rfl | rfl <;>
      simp [sortByStart, List.insertionSort, List.orderedInsert,
        le_of_lt horder, not_le.mpr horder]
  have hsne : hs ≠ [] := by rcases hpair with rfl | rfl <;> simp
  have heq : segmentText content hs = segmentLoop content 0 [h1, h2] := by
    rw [segmentText, if_neg hcne, if_neg hsne, hsort]
  rw [heq, segmentLoop_pair_eq content h1 h2 ha0 ha hal hb hbl horder hover]
  have key : ∀ s ∈
      (if (0 : Int) < h1.start then
        [(⟨jsSlice content 0 h1.start, none, 0, h1.start⟩ : TextSegment)] else []) ++
      (⟨jsSlice content h1.start h1.stop, some h1, h1.start, h1.stop⟩ : TextSegment) ::
      (if h1.stop < h2.stop then
        (⟨jsSlice content h1.stop h2.stop, some h2, h1.stop, h2.stop⟩ : TextSegment) ::
          (if h2.stop < (content.length : Int) then
            [(⟨jsSlice content h2.stop content.length, none, h2.stop,
              content.length⟩ : TextSegment)]
          else [])
      else
        (if h1.stop < (content.length : Int) then
          [(⟨jsSlice content h1.stop content.length, none, h1.stop,
            content.length⟩ : TextSegment)]
        else [])),
      s.highlight = some h2 → h1.stop < h2.stop ∧ s.start = h1.stop ∧ s.stop = h2.stop := by
    intro s hsmem hshl
    split_ifs at hsmem <;>
      simp only [List.mem_append, List.mem_cons, List.mem_singleton,
        List.not_mem_nil, or_false, false_or] at hsmem <;>
      [rcases hsmem with rfl | rfl | rfl | rfl;
       rcases hsmem with rfl | rfl | rfl;
       rcases hsmem with rfl | rfl | rfl;
       rcases hsmem with rfl | rfl;
       rcases hsmem with rfl | rfl | rfl;
       rcases hsmem with rfl | rfl;
       rcases hsmem with rfl | rfl;
       rcases hsmem with rfl] <;>
      first
        | exact Option.noConfusion hshl
        | (exfalso
           have hesub : h1 = h2 := Option.some.inj hshl
           subst hesub
           omega)
        | exact ⟨by omega, rfl, rfl⟩
  refine ⟨?_, fun s hm hh => (key s hm hh).2, fun hba s hm hh => by
    have := (key s hm hh).1
    omega⟩
  intro i hi1 hi2
  have hb1 : h1.start ≤ i := by omega
  have hb2 : i < h1.stop := by omega
  exact ⟨⟨jsSlice content h1.start h1.stop, some h1, h1.start, h1.stop⟩,
    List.mem_append_right _ (List.mem_cons_self _ _), rfl, hb1, hb2⟩

/-- Witness for `segmentText_overlap` at a concrete input. -/
theorem segmentText_overlap_witness :
    ((0 : Int) ≤ 1 ∧ (1 : Int) < 5 ∧ (5 : Int) ≤ ((String.toList "abcdefgh").length : Int) ∧
      (3 : Int) < 7 ∧ (7 : Int) ≤ ((String.toList "abcdefgh").length : Int) ∧
      (1 : Int) < 3 ∧ (3 : Int) < 5) ∧
    ((∀ i : Int, (3 : Int) ≤ i → i < min 5 7 →
        ∃ s ∈ segmentText (String.toList "abcdefgh")
            [⟨"a", 1, 5, none⟩, ⟨"b", 3, 7, none⟩],
          s.highlight = some ⟨"a", 1, 5, none⟩ ∧ s.start ≤ i ∧ i < s.stop) ∧
      (∀ s ∈ segmentText (String.toList "abcdefgh")
          [⟨"a", 1, 5, none⟩, ⟨"b", 3, 7, none⟩],
        s.highlight = some ⟨"b", 3, 7, none⟩ → s.start = 5 ∧ s.stop = 7) ∧
      ((7 : Int) ≤ 5 → ∀ s ∈ segmentText (String.toList "abcdefgh")
          [⟨"a", 1, 5, none⟩, ⟨"b", 3, 7, none⟩],
        s.highlight ≠ some ⟨"b", 3, 7, none⟩)) :=
  ⟨by decide,
    segmentText_overlap (String.toList "abcdefgh") ⟨"a", 1, 5, none⟩ ⟨"b", 3, 7, none⟩
      [⟨"a", 1, 5, none⟩, ⟨"b", 3, 7, none⟩] (by decide) (by decide) (by decide)
      (by decide) (by decide) (by decide) (by decide) (Or.inl rfl)⟩
